import Mathlib

/-!
Shallow embedding of `src/var/rpc_var.h` (srpc metrics variables).

Doubles are modelled as rationals (`ℚ`); `sizeof(double)` is the constant 8.
Pointers to registry entries and to local registries are modelled as opaque
numeric handles (`Nat`).  A `reduce` payload pointing at a double is modelled
by the pointed value itself together with the size argument.
-/

namespace srpc

/-- Mirrors `enum RPCVarType` in rpc_var.h. -/
inductive RPCVarType
  | VAR_GAUGE
  | VAR_COUNTER
  | VAR_HISTOGRAM
  | VAR_SUMMARY
deriving DecidableEq, Repr

/-- Mirrors `type_string` in rpc_var.h. -/
def type_string : RPCVarType → String
  | .VAR_GAUGE => "gauge"
  | .VAR_COUNTER => "counter"
  | .VAR_HISTOGRAM => "histogram"
  | .VAR_SUMMARY => "summary"

/-- The size argument corresponding to C++ `sizeof(double)`. -/
def sizeof_double : Nat := 8

/-- Mirrors `class GaugeVar : public RPCVar`: the base-class fields
`name`, `help`, `type` together with the gauge's `double data`. -/
structure GaugeVar where
  name : String
  help : String
  type : RPCVarType
  data : ℚ
deriving DecidableEq, Repr

/-- Mirrors the constructor `GaugeVar(name, help)`: base type tag
`VAR_GAUGE`, `data = 0`. -/
def GaugeVar.make (name help : String) : GaugeVar :=
  { name := name, help := help, type := RPCVarType.VAR_GAUGE, data := 0 }

/-- Mirrors `RPCVar::get_name`. -/
def GaugeVar.get_name (g : GaugeVar) : String := g.name

/-- Mirrors `RPCVar::get_type`. -/
def GaugeVar.get_type (g : GaugeVar) : RPCVarType := g.type

/-- Mirrors `GaugeVar::get`. -/
def GaugeVar.get (g : GaugeVar) : ℚ := g.data

/-- Mirrors `GaugeVar::set`. -/
def GaugeVar.set (g : GaugeVar) (var : ℚ) : GaugeVar := { g with data := var }

/-- Mirrors `GaugeVar::increase` (`++this->data`). -/
def GaugeVar.increase (g : GaugeVar) : GaugeVar := { g with data := g.data + 1 }

/-- Mirrors `GaugeVar::decrease` (`--this->data`). -/
def GaugeVar.decrease (g : GaugeVar) : GaugeVar := { g with data := g.data - 1 }

/-- Mirrors `GaugeVar::get_size` (`sizeof(double)`). -/
def GaugeVar.get_size (_ : GaugeVar) : Nat := sizeof_double

/-- Mirrors `GaugeVar::get_data`: the payload a pointer to `this->data`
dereferences to. -/
def GaugeVar.get_data (g : GaugeVar) : ℚ := g.data

/-- Mirrors `GaugeVar::reduce(const void *ptr, size_t sz)`:
`this->data += *(double *)ptr; return true;`.  The source performs no check
on `sz`; the argument is ignored. -/
def GaugeVar.reduce (g : GaugeVar) (ptr : ℚ) (sz : Nat) : GaugeVar × Bool :=
  (fun _ => ({ g with data := g.data + ptr }, true)) sz

/-- One callback invocation on an `RPCVarCollector`; one constructor per pure
virtual method of the collector interface in rpc_var.h. -/
inductive CollectEvent
  | collect_gauge (gauge : GaugeVar) (data : ℚ)
  | collect_counter_each (label : String) (data : ℚ)
  | collect_histogram_begin
  | collect_histogram_each (bucket_boundary : WithTop ℚ) (current_count : Nat)
  | collect_histogram_end (sum : ℚ) (count : Nat)
  | collect_summary_begin
  | collect_summary_each (quantile : ℚ) (quantile_out : ℚ)
  | collect_summary_end (sum : ℚ) (count : Nat)
deriving DecidableEq

/-- Mirrors `GaugeVar::collect`: the sequence of collector callbacks the
method performs, in order.  The body is the single call
`collector->collect_gauge(this, this->data)`. -/
def GaugeVar.collect (g : GaugeVar) : List CollectEvent :=
  [CollectEvent.collect_gauge g g.data]

/-- Mirrors `class RPCVarLocal`: the per-context name → variable map.
Variable pointers are opaque handles. -/
structure RPCVarLocal where
  vars : List (String × Nat)
deriving DecidableEq, Repr

/-- Mirrors `RPCVarLocal::add(name, var)`: look the name up, insert only
when absent. -/
def RPCVarLocal.add (l : RPCVarLocal) (name : String) (var : Nat) : RPCVarLocal :=
  match l.vars.lookup name with
  | some _ => l
  | none => { l with vars := (name, var) :: l.vars }

/-- Mirrors `class RPCVarGlobal`: the process-wide list of local
registries (opaque handles, in registration order). -/
structure RPCVarGlobal where
  local_vars : List Nat
deriving DecidableEq, Repr

/-- Mirrors `RPCVarGlobal::add(RPCVarLocal *var)`: `push_back` on
`local_vars`. -/
def RPCVarGlobal.add (g : RPCVarGlobal) (var : Nat) : RPCVarGlobal :=
  { g with local_vars := g.local_vars ++ [var] }

/-- Mirrors the private constructor `RPCVarLocal::RPCVarLocal()`: it starts
with an empty map and calls `RPCVarGlobal::get_instance()->add(this)`.
The handle `p` stands for `this`; the result is the updated global registry
together with the fresh local registry. -/
def RPCVarLocal.construct (g : RPCVarGlobal) (p : Nat) : RPCVarGlobal × RPCVarLocal :=
  (g.add p, { vars := [] })

/-! ## Claims about GaugeVar -/

/-- Claim C1: for every `GaugeVar` and every payload pointing to a double
value `d`, `reduce(ptr, sz)` adds `d` to the stored value (afterwards `get()`
is the old value plus `d`) and returns `true` — gauge merge is sum merge. -/
theorem gauge_reduce_is_sum_merge (g : GaugeVar) (d : ℚ) (sz : Nat) :
    ((g.reduce d sz).1).get = g.get + d ∧ (g.reduce d sz).2 = true := by
  constructor <;> rfl

/-- Claim C2 counterexample: with size argument `0 ≠ sizeof(double)`,
`GaugeVar::reduce` does not return `false` with state unchanged; at the
concrete gauge `make "g" "h"` and payload `5` it returns `true` and mutates
the value. -/
theorem gauge_reduce_shape_check_cex :
    ¬ ((((GaugeVar.make "g" "h").reduce 5 0).2 = false) ∧
       (((GaugeVar.make "g" "h").reduce 5 0).1).get = (GaugeVar.make "g" "h").get) := by
  intro h
  exact absurd h.1 (by decide)

/-- Claim C2 (amended): `GaugeVar::reduce` performs no shape validation:
even when the size argument differs from `sizeof(double)`, it adds the
pointed double to the stored value and returns `true`. -/
theorem gauge_reduce_no_shape_check (g : GaugeVar) (d : ℚ) (sz : Nat)
    (_h : sz ≠ sizeof_double) :
    (g.reduce d sz).2 = true ∧ ((g.reduce d sz).1).get = g.get + d := by
  constructor <;> rfl

/-- Witness for `gauge_reduce_no_shape_check` at `sz = 0`, `d = 1`. -/
theorem gauge_reduce_no_shape_check_witness :
    (0 : Nat) ≠ sizeof_double ∧
    ((((GaugeVar.make "g" "h").reduce 1 0).2 = true) ∧
     ((((GaugeVar.make "g" "h").reduce 1 0).1).get = (GaugeVar.make "g" "h").get + 1)) :=
  ⟨by decide, gauge_reduce_no_shape_check (GaugeVar.make "g" "h") 1 0 (by decide)⟩

/-- Claim C9: a freshly constructed `GaugeVar` holds the kind's zero value:
`get()` returns 0 before any mutation. -/
theorem gauge_fresh_is_zero (name help : String) :
    (GaugeVar.make name help).get = 0 := rfl

/-- Claim C10: `set`/`get` round-trip: immediately after `set v`, `get`
returns exactly `v`, overwriting any previous value. -/
theorem gauge_set_get_roundtrip (g : GaugeVar) (v : ℚ) :
    (g.set v).get = v := rfl

/-- Claim C6: `GaugeVar::collect` invokes exactly one collector callback,
namely `collect_gauge(this, data)`, and no other collector method; in
particular a gauge holding 3.5 emits exactly one `collect_gauge` with 3.5. -/
theorem gauge_collect_single_event (g : GaugeVar) (name help : String) :
    g.collect = [CollectEvent.collect_gauge g g.get] ∧
    ((GaugeVar.make name help).set (7/2)).collect =
      [CollectEvent.collect_gauge ((GaugeVar.make name help).set (7/2)) (7/2)] := by
  constructor <;> rfl

/-! ## Gauge aggregation across contexts (export flow) -/

/-- A single hot-path mutation on a gauge: `increase()` or `decrease()`. -/
inductive GaugeStep
  | inc
  | dec
deriving DecidableEq, Repr

/-- Run one `GaugeStep` on a gauge. -/
def applyGaugeStep (g : GaugeVar) : GaugeStep → GaugeVar
  | .inc => g.increase
  | .dec => g.decrease

/-- Run a sequence of `increase`/`decrease` calls on a gauge. -/
def applyGaugeSteps (ops : List GaugeStep) (g : GaugeVar) : GaugeVar :=
  ops.foldl applyGaugeStep g

/-- The export flow of the spec: fold every context's gauge into an
accumulator by calling `reduce` with the other gauge's `get_data()` payload
and `get_size()` size. -/
def foldReduce (init : GaugeVar) (gs : List GaugeVar) : GaugeVar :=
  gs.foldl (fun acc g => (acc.reduce g.get_data g.get_size).1) init

lemma applyGaugeSteps_get (ops : List GaugeStep) (g : GaugeVar) :
    (applyGaugeSteps ops g).get =
      g.get + (ops.count GaugeStep.inc : ℚ) - (ops.count GaugeStep.dec : ℚ) := by
  induction ops generalizing g with
  | nil => simp [applyGaugeSteps]
  | cons op t ih =>
    have hfold : applyGaugeSteps (op :: t) g = applyGaugeSteps t (applyGaugeStep g op) := rfl
    rw [hfold, ih]
    cases op with
    | inc =>
      simp +decide [applyGaugeStep, GaugeVar.increase, GaugeVar.get, List.count_cons]
      ring
    | dec =>
      simp +decide [applyGaugeStep, GaugeVar.decrease, GaugeVar.get, List.count_cons]
      ring

lemma foldReduce_get (init : GaugeVar) (gs : List GaugeVar) :
    (foldReduce init gs).get = init.get + (gs.map GaugeVar.get).sum := by
  induction gs generalizing init with
  | nil => simp [foldReduce]
  | cons g t ih =>
    have hfold : foldReduce init (g :: t) = foldReduce (init.reduce g.get_data g.get_size).1 t := rfl
    rw [hfold, ih]
    simp only [GaugeVar.reduce, GaugeVar.get, GaugeVar.get_data, List.map_cons, List.sum_cons]
    ring

lemma sum_map_sub_q {α : Type} (f g : α → ℚ) (l : List α) :
    (l.map (fun x => f x - g x)).sum = (l.map f).sum - (l.map g).sum := by
  induction l with
  | nil => simp
  | cons x t ih => simp [ih]; ring

/-- Claim C3: distributing any sequences of `increase`/`decrease` over N
fresh gauges and folding them all into a zero-valued gauge via `reduce`
yields exactly (number of increases) − (number of decreases), and the result
does not depend on the order in which the gauges are reduced. -/
theorem gauge_aggregation_is_signed_count (ctxs ctxs' : List (List GaugeStep))
    (hperm : ctxs.Perm ctxs') :
    (foldReduce (GaugeVar.make "aggregate" "")
        (ctxs.map (fun ops => applyGaugeSteps ops (GaugeVar.make "g" "")))).get =
      (ctxs.flatten.count GaugeStep.inc : ℚ) - (ctxs.flatten.count GaugeStep.dec : ℚ) ∧
    (foldReduce (GaugeVar.make "aggregate" "")
        (ctxs'.map (fun ops => applyGaugeSteps ops (GaugeVar.make "g" "")))).get =
      (foldReduce (GaugeVar.make "aggregate" "")
        (ctxs.map (fun ops => applyGaugeSteps ops (GaugeVar.make "g" "")))).get := by
  have hval : ∀ (l : List (List GaugeStep)),
      (foldReduce (GaugeVar.make "aggregate" "")
        (l.map (fun ops => applyGaugeSteps ops (GaugeVar.make "g" "")))).get =
      (l.flatten.count GaugeStep.inc : ℚ) - (l.flatten.count GaugeStep.dec : ℚ) := by
    intro l
    rw [foldReduce_get]
    have hzero : (GaugeVar.make "aggregate" "").get = 0 := rfl
    rw [hzero, zero_add, List.map_map]
    have hmap : ∀ ops : List GaugeStep,
        (GaugeVar.get ∘ fun ops => applyGaugeSteps ops (GaugeVar.make "g" "")) ops =
          (ops.count GaugeStep.inc : ℚ) - (ops.count GaugeStep.dec : ℚ) := by
      intro ops
      show (applyGaugeSteps ops (GaugeVar.make "g" "")).get =
        (ops.count GaugeStep.inc : ℚ) - (ops.count GaugeStep.dec : ℚ)
      rw [applyGaugeSteps_get]
      have hz : (GaugeVar.make "g" "").get = 0 := rfl
      rw [hz, zero_add]
    rw [List.map_congr_left (fun ops _ => hmap ops)]
    rw [sum_map_sub_q (fun ops => (ops.count GaugeStep.inc : ℚ))
      (fun ops => (ops.count GaugeStep.dec : ℚ)) l]
    have hc : ∀ s : GaugeStep,
        ((l.flatten.count s : Nat) : ℚ) = (l.map (fun ops => ((ops.count s : Nat) : ℚ))).sum := by
      intro s
      rw [List.count_flatten]
      rw [Nat.cast_list_sum]
      rw [List.map_map]
      rfl
    rw [hc GaugeStep.inc, hc GaugeStep.dec]
  refine ⟨hval ctxs, ?_⟩
  rw [hval ctxs, hval ctxs']
  have hjoin : ctxs'.flatten.Perm ctxs.flatten := (hperm.flatten).symm
  rw [hjoin.count_eq, hjoin.count_eq]

/-- Witness for `gauge_aggregation_is_signed_count` at two concrete
permuted context lists. -/
theorem gauge_aggregation_is_signed_count_witness :
    ([[GaugeStep.inc, GaugeStep.inc], [GaugeStep.dec]]).Perm
      [[GaugeStep.dec], [GaugeStep.inc, GaugeStep.inc]] ∧
    ((foldReduce (GaugeVar.make "aggregate" "")
        (([[GaugeStep.inc, GaugeStep.inc], [GaugeStep.dec]]).map
          (fun ops => applyGaugeSteps ops (GaugeVar.make "g" "")))).get =
      (([[GaugeStep.inc, GaugeStep.inc], [GaugeStep.dec]]).flatten.count GaugeStep.inc : ℚ) -
      (([[GaugeStep.inc, GaugeStep.inc], [GaugeStep.dec]]).flatten.count GaugeStep.dec : ℚ) ∧
     (foldReduce (GaugeVar.make "aggregate" "")
        (([[GaugeStep.dec], [GaugeStep.inc, GaugeStep.inc]]).map
          (fun ops => applyGaugeSteps ops (GaugeVar.make "g" "")))).get =
      (foldReduce (GaugeVar.make "aggregate" "")
        (([[GaugeStep.inc, GaugeStep.inc], [GaugeStep.dec]]).map
          (fun ops => applyGaugeSteps ops (GaugeVar.make "g" "")))).get) :=
  ⟨by decide, gauge_aggregation_is_signed_count
      [[GaugeStep.inc, GaugeStep.inc], [GaugeStep.dec]]
      [[GaugeStep.dec], [GaugeStep.inc, GaugeStep.inc]] (by decide)⟩

/-! ## Claims about the registries -/

/-- Claim C4: `RPCVarLocal::add` is first-writer-wins: afterwards the name
maps to the previously registered variable when one exists (and the registry
is left untouched, so `w` is not stored), and to `w` when the name was
absent; every other name's mapping is unchanged. -/
theorem local_add_first_writer_wins (reg : RPCVarLocal) (name : String) (w : Nat)
    (other : String) :
    (((reg.add name w).vars.lookup other) =
      if other = name then some ((reg.vars.lookup name).getD w)
      else reg.vars.lookup other) ∧
    (∀ v, reg.vars.lookup name = some v → reg.add name w = reg) := by
  refine ⟨?_, ?_⟩
  case refine_2 =>
    intro v hv
    unfold RPCVarLocal.add
    rw [hv]
  unfold RPCVarLocal.add
  cases hfind : reg.vars.lookup name with
  | some v =>
    simp only [Option.getD_some]
    by_cases hother : other = name
    · subst hother
      simp [hfind]
    · simp [hother]
  | none =>
    simp only [Option.getD_none, List.lookup_cons]
    by_cases hother : other = name
    · subst hother
      simp
    · have hbeq : (other == name) = false := beq_false_of_ne hother
      simp [hbeq, hother]

/-- Witness for `local_add_first_writer_wins` at a registry already mapping
`"a"` to variable 1, adding variable 2 under the same name. -/
theorem local_add_first_writer_wins_witness :
    ((((RPCVarLocal.mk [("a", 1)]).add "a" 2).vars.lookup "a") =
      if "a" = "a" then some (((RPCVarLocal.mk [("a", 1)]).vars.lookup "a").getD 2)
      else (RPCVarLocal.mk [("a", 1)]).vars.lookup "a") ∧
    ((RPCVarLocal.mk [("a", 1)]).vars.lookup "a" = some 1 ∧
     (RPCVarLocal.mk [("a", 1)]).add "a" 2 = RPCVarLocal.mk [("a", 1)]) :=
  ⟨(local_add_first_writer_wins (RPCVarLocal.mk [("a", 1)]) "a" 2 "a").1,
   by decide,
   (local_add_first_writer_wins (RPCVarLocal.mk [("a", 1)]) "a" 2 "a").2 1 (by decide)⟩

/-- Claim C8: constructing an `RPCVarLocal` registers it with the global
registry: the new handle is appended at the end of `local_vars`, hence the
local registry is enumerable from the global one. -/
theorem local_construct_registers_globally (g : RPCVarGlobal) (p : Nat) :
    (RPCVarLocal.construct g p).1.local_vars = g.local_vars ++ [p] ∧
    p ∈ (RPCVarLocal.construct g p).1.local_vars := by
  refine ⟨rfl, ?_⟩
  simp [RPCVarLocal.construct, RPCVarGlobal.add]

/-! ## HistogramVar, modelled from the spec

The methods of `HistogramVar` (constructor, `observe`, `observe_multi`,
`reduce`, `collect`) are only declared in rpc_var.h; their definitions are
not among the sources at hand, so they are modelled from the spec. -/

/-- Modelled from the spec: `HistogramVar` holds an ordered sequence of
bucket upper boundaries, "implicitly terminated by +infinity" (the implicit
terminator is modelled as an explicit `⊤` element), a parallel sequence of
cumulative counts (`bucket_counts[i]` = number of observations ≤
`boundaries[i]`), a running `sum` and a running `count`, besides the base
`RPCVar` fields. -/
structure HistogramVar where
  name : String
  help : String
  type : RPCVarType
  bucket_boundaries : List (WithTop ℚ)
  bucket_counts : List Nat
  sum : ℚ
  count : Nat
deriving DecidableEq

/-- Mirrors `RPCVar::get_name` for histograms. -/
def HistogramVar.get_name (h : HistogramVar) : String := h.name

/-- Mirrors `RPCVar::get_type` for histograms. -/
def HistogramVar.get_type (h : HistogramVar) : RPCVarType := h.type

/-- Modelled from the spec: the missing constructor
`HistogramVar(name, help, bucket)` — the given finite boundaries followed by
the implicit `⊤` terminator, all cumulative counts zero, zero sum and
count. -/
def HistogramVar.make (name help : String) (bucket : List ℚ) : HistogramVar :=
  { name := name, help := help, type := RPCVarType.VAR_HISTOGRAM,
    bucket_boundaries := bucket.map (fun (b : ℚ) => (b : WithTop ℚ)) ++ [⊤],
    bucket_counts := List.replicate (bucket.length + 1) 0,
    sum := 0, count := 0 }

/-- Modelled from the spec: the missing `HistogramVar::observe(value)` —
every cumulative bucket whose boundary is at least the value is incremented
(the `⊤` bucket always is); `sum` and `count` advance. -/
def HistogramVar.observe (h : HistogramVar) (value : ℚ) : HistogramVar :=
  { h with
    bucket_counts := List.zipWith
      (fun b c => if (value : WithTop ℚ) ≤ b then c + 1 else c)
      h.bucket_boundaries h.bucket_counts,
    sum := h.sum + value,
    count := h.count + 1 }

/-- Prefix sums of a per-bucket count vector: entry `i` is the sum of the
first `i + 1` entries of the input. -/
def cumSum : List Nat → List Nat
  | [] => []
  | x :: xs => x :: (cumSum xs).map (fun y => x + y)

/-- Modelled from the spec and the header comment "multi is the histogram
count of each bucket, including +inf": the missing
`HistogramVar::observe_multi(multi, sum)` folds per-bucket counts into the
cumulative counts by adding their prefix sums pointwise; `count` advances by
their total and `sum` by the given sum.  A `multi` of the wrong length is
rejected before any mutation. -/
def HistogramVar.observe_multi (h : HistogramVar) (multi : List Nat) (s : ℚ) :
    HistogramVar × Bool :=
  if multi.length = h.bucket_counts.length then
    ({ h with
       bucket_counts := List.zipWith (fun a b => a + b) h.bucket_counts (cumSum multi),
       sum := h.sum + s,
       count := h.count + multi.sum }, true)
  else (h, false)

/-- Modelled from the spec: the missing `HistogramVar::reduce(ptr, sz)`
where the payload is another histogram's data — identical boundary
sequences and matching sizes are the structural precondition, checked
before any mutation; on success the cumulative counts are added
element-wise and `sum`/`count` are added. -/
def HistogramVar.reduce (h : HistogramVar) (other : HistogramVar) (sz : Nat) :
    HistogramVar × Bool :=
  if other.bucket_boundaries = h.bucket_boundaries ∧
      sz = h.bucket_counts.length ∧
      other.bucket_counts.length = h.bucket_counts.length then
    ({ h with
       bucket_counts := List.zipWith (fun a b => a + b) h.bucket_counts other.bucket_counts,
       sum := h.sum + other.sum,
       count := h.count + other.count }, true)
  else (h, false)

/-- One public mutation of a histogram. -/
inductive HistogramOp
  | obs (value : ℚ)
  | multi (m : List Nat) (s : ℚ)
  | red (other : HistogramVar) (sz : Nat)
deriving DecidableEq

/-- Run one `HistogramOp`. -/
def applyHistogramOp (h : HistogramVar) : HistogramOp → HistogramVar
  | .obs v => h.observe v
  | .multi m s => (h.observe_multi m s).1
  | .red o sz => (h.reduce o sz).1

/-- Run a sequence of histogram operations. -/
def applyHistogramOps (ops : List HistogramOp) (h : HistogramVar) : HistogramVar :=
  ops.foldl applyHistogramOp h

/-- The counts-side invariant of a histogram: cumulative counts are
non-decreasing in boundary order and the last one equals the running
count. -/
abbrev countsWF (l : List Nat) (count : Nat) : Prop :=
  l.Pairwise (fun a b => a ≤ b) ∧ l.getD (l.length - 1) 0 = count

/-- The full histogram invariant: a non-empty counts vector parallel to the
boundaries, sorted boundaries ending in the `⊤` terminator, and well-formed
counts. -/
abbrev HistWF (h : HistogramVar) : Prop :=
  0 < h.bucket_counts.length ∧
  h.bucket_counts.length = h.bucket_boundaries.length ∧
  h.bucket_boundaries.Pairwise (fun a b => a ≤ b) ∧
  h.bucket_boundaries.getD (h.bucket_boundaries.length - 1) ⊤ = ⊤ ∧
  countsWF h.bucket_counts h.count

/-- A `red` op's merge partner is a serialized snapshot of a same-kind
instance, so its own counts satisfy the counts invariant. -/
abbrev HistogramOpWF : HistogramOp → Prop
  | .red other _ => countsWF other.bucket_counts other.count
  | _ => True

lemma cumSum_length (l : List Nat) : (cumSum l).length = l.length := by
  induction l with
  | nil => rfl
  | cons x xs ih => simp [cumSum, ih]

lemma cumSum_pairwise (l : List Nat) : (cumSum l).Pairwise (fun a b => a ≤ b) := by
  induction l with
  | nil => exact List.Pairwise.nil
  | cons x xs ih =>
    rw [cumSum, List.pairwise_cons]
    constructor
    · intro y hy
      rcases List.mem_map.mp hy with ⟨z, _, rfl⟩
      exact Nat.le_add_right x z
    · exact ih.map (fun y => x + y) (fun a b hab => Nat.add_le_add_left hab x)

lemma cumSum_getD_last (l : List Nat) (hne : l ≠ []) :
    (cumSum l).getD (l.length - 1) 0 = l.sum := by
  induction l with
  | nil => exact absurd rfl hne
  | cons x xs ih =>
    rcases eq_or_ne xs [] with hxs | hxs
    · subst hxs
      simp [cumSum]
    · have hx0 : 0 < xs.length := List.length_pos.mpr hxs
      have hlen : (x :: xs).length - 1 = (xs.length - 1) + 1 := by
        rw [List.length_cons]
        omega
      rw [cumSum, hlen, List.getD_cons_succ]
      have hidx : xs.length - 1 < ((cumSum xs).map (fun y => x + y)).length := by
        rw [List.length_map, cumSum_length]
        omega
      rw [List.getD_eq_getElem _ _ hidx]
      rw [List.getElem_map]
      have hidx2 : xs.length - 1 < (cumSum xs).length := by
        rw [cumSum_length]
        omega
      rw [← List.getD_eq_getElem (cumSum xs) 0 hidx2, ih hxs]
      simp

lemma zipWith_getD_last {α β γ : Type} (f : α → β → γ) (a : List α) (b : List β)
    (hlen : b.length = a.length) (hpos : 0 < a.length) (d : γ) (da : α) (db : β) :
    (List.zipWith f a b).getD ((List.zipWith f a b).length - 1) d
      = f (a.getD (a.length - 1) da) (b.getD (b.length - 1) db) := by
  have hz : (List.zipWith f a b).length = a.length := by
    rw [List.length_zipWith, hlen]
    simp
  rw [hz, hlen]
  have h1 : a.length - 1 < a.length := by omega
  have h2 : a.length - 1 < b.length := by rw [hlen]; omega
  have h3 : a.length - 1 < (List.zipWith f a b).length := by rw [hz]; omega
  rw [List.getD_eq_getElem _ _ h3, List.getD_eq_getElem _ _ h1, List.getD_eq_getElem _ _ h2]
  simp only [List.getElem_zipWith]

lemma zipWith_add_pairwise (a b : List Nat)
    (ha : a.Pairwise (fun x y => x ≤ y)) (hb : b.Pairwise (fun x y => x ≤ y)) :
    (List.zipWith (fun x y => x + y) a b).Pairwise (fun x y => x ≤ y) := by
  rw [List.pairwise_iff_getElem] at ha hb ⊢
  intro i j hi hj hij
  have hl := List.length_zipWith (fun x y : Nat => x + y) a b
  have hia : i < a.length := lt_of_lt_of_le hi (by rw [hl]; exact inf_le_left)
  have hja : j < a.length := lt_of_lt_of_le hj (by rw [hl]; exact inf_le_left)
  have hib : i < b.length := lt_of_lt_of_le hi (by rw [hl]; exact inf_le_right)
  have hjb : j < b.length := lt_of_lt_of_le hj (by rw [hl]; exact inf_le_right)
  simp only [List.getElem_zipWith]
  exact Nat.add_le_add (ha i j hia hja hij) (hb i j hib hjb hij)

lemma observe_counts_pairwise (bd : List (WithTop ℚ)) (c : List Nat) (v : ℚ)
    (hbd : bd.Pairwise (fun a b => a ≤ b)) (hc : c.Pairwise (fun a b => a ≤ b)) :
    (List.zipWith (fun b cc => if (v : WithTop ℚ) ≤ b then cc + 1 else cc) bd c).Pairwise
      (fun a b => a ≤ b) := by
  rw [List.pairwise_iff_getElem] at hbd hc ⊢
  intro i j hi hj hij
  have hl := List.length_zipWith
    (fun (b : WithTop ℚ) (cc : Nat) => if (v : WithTop ℚ) ≤ b then cc + 1 else cc) bd c
  have hia : i < bd.length := lt_of_lt_of_le hi (by rw [hl]; exact inf_le_left)
  have hja : j < bd.length := lt_of_lt_of_le hj (by rw [hl]; exact inf_le_left)
  have hib : i < c.length := lt_of_lt_of_le hi (by rw [hl]; exact inf_le_right)
  have hjb : j < c.length := lt_of_lt_of_le hj (by rw [hl]; exact inf_le_right)
  simp only [List.getElem_zipWith]
  have hcc := hc i j hib hjb hij
  by_cases hvi : (v : WithTop ℚ) ≤ bd[i]
  · have hvj : (v : WithTop ℚ) ≤ bd[j] :=
      le_trans hvi (hbd i j hia hja hij)
    simpa [hvi, hvj] using Nat.add_le_add_right hcc 1
  · by_cases hvj : (v : WithTop ℚ) ≤ bd[j]
    · simpa [hvi, hvj] using le_trans hcc (Nat.le_succ _)
    · simpa [hvi, hvj] using hcc

lemma histWF_observe (h : HistogramVar) (v : ℚ) (hwf : HistWF h) :
    HistWF (h.observe v) := by
  obtain ⟨hpos, hleneq, hbd, hbdlast, hcpw, hclast⟩ := hwf
  unfold HistogramVar.observe
  have hzlen : (List.zipWith (fun b cc => if (v : WithTop ℚ) ≤ b then cc + 1 else cc)
      h.bucket_boundaries h.bucket_counts).length = h.bucket_counts.length := by
    rw [List.length_zipWith, ← hleneq]
    simp
  refine ⟨?_, ?_, hbd, hbdlast, observe_counts_pairwise _ _ _ hbd hcpw, ?_⟩
  · rw [hzlen]
    exact hpos
  · rw [hzlen]
    exact hleneq
  · have hlast := zipWith_getD_last
      (fun b cc => if (v : WithTop ℚ) ≤ b then cc + 1 else cc)
      h.bucket_boundaries h.bucket_counts hleneq (hleneq ▸ hpos) 0 ⊤ 0
    rw [hlast]
    rw [hbdlast]
    rw [if_pos le_top]
    rw [hclast]

lemma histWF_observe_multi (h : HistogramVar) (m : List Nat) (s : ℚ)
    (hwf : HistWF h) : HistWF ((h.observe_multi m s).1) := by
  obtain ⟨hpos, hleneq, hbd, hbdlast, hcpw, hclast⟩ := hwf
  unfold HistogramVar.observe_multi
  by_cases hlen : m.length = h.bucket_counts.length
  · rw [if_pos hlen]
    have hmne : m ≠ [] := by
      intro he
      rw [he] at hlen
      simp at hlen
      omega
    have hclen : (cumSum m).length = h.bucket_counts.length := by
      rw [cumSum_length, hlen]
    have hzlen : (List.zipWith (fun a b => a + b) h.bucket_counts (cumSum m)).length
        = h.bucket_counts.length := by
      rw [List.length_zipWith, hclen]
      simp
    refine ⟨?_, ?_, hbd, hbdlast, ?_, ?_⟩
    · rw [hzlen]
      exact hpos
    · rw [hzlen]
      exact hleneq
    · exact zipWith_add_pairwise _ _ hcpw (cumSum_pairwise m)
    · have hlast := zipWith_getD_last (fun a b => a + b)
        h.bucket_counts (cumSum m) hclen hpos 0 0 0
      rw [hlast, hclast]
      have hidx : (cumSum m).length - 1 = m.length - 1 := by
        rw [cumSum_length]
      rw [hidx]
      rw [cumSum_getD_last m hmne]
  · rw [if_neg hlen]
    exact ⟨hpos, hleneq, hbd, hbdlast, hcpw, hclast⟩

lemma histWF_reduce (h : HistogramVar) (other : HistogramVar) (sz : Nat)
    (hwf : HistWF h) (hother : countsWF other.bucket_counts other.count) :
    HistWF ((h.reduce other sz).1) := by
  obtain ⟨hpos, hleneq, hbd, hbdlast, hcpw, hclast⟩ := hwf
  obtain ⟨hopw, holast⟩ := hother
  unfold HistogramVar.reduce
  by_cases hcond : other.bucket_boundaries = h.bucket_boundaries ∧
      sz = h.bucket_counts.length ∧
      other.bucket_counts.length = h.bucket_counts.length
  · rw [if_pos hcond]
    obtain ⟨-, -, holen⟩ := hcond
    have hzlen : (List.zipWith (fun a b => a + b) h.bucket_counts
        other.bucket_counts).length = h.bucket_counts.length := by
      rw [List.length_zipWith, holen]
      simp
    refine ⟨?_, ?_, hbd, hbdlast, ?_, ?_⟩
    · rw [hzlen]
      exact hpos
    · rw [hzlen]
      exact hleneq
    · exact zipWith_add_pairwise _ _ hcpw hopw
    · have hlast := zipWith_getD_last (fun a b => a + b)
        h.bucket_counts other.bucket_counts holen hpos 0 0 0
      rw [hlast, hclast, holast]
  · rw [if_neg hcond]
    exact ⟨hpos, hleneq, hbd, hbdlast, hcpw, hclast⟩

lemma histWF_apply (h : HistogramVar) (op : HistogramOp) (hwf : HistWF h)
    (hop : HistogramOpWF op) : HistWF (applyHistogramOp h op) := by
  cases op with
  | obs v => exact histWF_observe h v hwf
  | multi m s => exact histWF_observe_multi h m s hwf
  | red o sz => exact histWF_reduce h o sz hwf hop

lemma histWF_applyOps (ops : List HistogramOp) (h : HistogramVar) (hwf : HistWF h)
    (hops : ∀ op ∈ ops, HistogramOpWF op) : HistWF (applyHistogramOps ops h) := by
  induction ops generalizing h with
  | nil => exact hwf
  | cons op t ih =>
    have hstep : applyHistogramOps (op :: t) h
        = applyHistogramOps t (applyHistogramOp h op) := rfl
    rw [hstep]
    exact ih (applyHistogramOp h op)
      (histWF_apply h op hwf (hops op (List.mem_cons_self op t)))
      (fun o ho => hops o (List.mem_cons_of_mem op ho))

lemma histWF_make (name help : String) (bucket : List ℚ)
    (hb : bucket.Pairwise (fun a b => a < b)) :
    HistWF (HistogramVar.make name help bucket) := by
  have hbc : (HistogramVar.make name help bucket).bucket_counts
      = List.replicate (bucket.length + 1) 0 := rfl
  have hbb : (HistogramVar.make name help bucket).bucket_boundaries
      = bucket.map (fun (b : ℚ) => (b : WithTop ℚ)) ++ [⊤] := rfl
  have hcount : (HistogramVar.make name help bucket).count = 0 := rfl
  refine ⟨?_, ?_, ?_, ?_, ?_, ?_⟩
  · rw [hbc]
    simp
  · rw [hbc, hbb]
    simp
  · rw [hbb]
    rw [List.pairwise_append]
    refine ⟨?_, by simp, ?_⟩
    · exact (hb.imp (fun hab => le_of_lt hab)).map
        (fun (b : ℚ) => (b : WithTop ℚ)) (fun a b hab => WithTop.coe_le_coe.mpr hab)
    · intro x hx y hy
      rw [List.mem_singleton.mp hy]
      exact le_top
  · rw [hbb]
    have hlen : ((bucket.map (fun (b : ℚ) => (b : WithTop ℚ))) ++ [⊤]).length
        = bucket.length + 1 := by simp
    rw [hlen]
    have hidx : bucket.length + 1 - 1 = bucket.length := by omega
    rw [hidx]
    have hmaplen : (bucket.map (fun (b : ℚ) => (b : WithTop ℚ))).length ≤ bucket.length := by
      simp
    rw [List.getD_append_right _ _ _ _ hmaplen]
    simp
  · rw [hbc]
    exact List.pairwise_replicate.mpr (Or.inr le_rfl)
  · rw [hbc, hcount]
    have hrl : (List.replicate (bucket.length + 1) (0 : Nat)).length
        = bucket.length + 1 := List.length_replicate _ _
    rw [hrl]
    have hidx2 : bucket.length + 1 - 1
        < (List.replicate (bucket.length + 1) (0 : Nat)).length := by
      rw [hrl]
      omega
    rw [List.getD_eq_getElem _ _ hidx2, List.getElem_replicate]

/-- A decision procedure for the merge-partner well-formedness of one
histogram operation. -/
instance instHistogramOpWFDecidable : (op : HistogramOp) → Decidable (HistogramOpWF op)
  | .obs _ => inferInstanceAs (Decidable True)
  | .multi _ _ => inferInstanceAs (Decidable True)
  | .red o _ => inferInstanceAs (Decidable (countsWF o.bucket_counts o.count))

/-- Claim C5: for a histogram built over strictly increasing boundaries,
after any sequence of `observe` / `observe_multi` / `reduce` operations
(each `reduce` partner being a serialized snapshot whose own counts are
well-formed), the length of `bucket_counts` equals the length of
`bucket_boundaries`, the cumulative counts are non-decreasing in ascending
boundary order, and the last bucket's cumulative count equals the running
count. -/
theorem histogram_cumulative_invariants (name help : String) (bucket : List ℚ)
    (hb : bucket.Pairwise (fun a b => a < b)) (ops : List HistogramOp)
    (hops : ∀ op ∈ ops, HistogramOpWF op) :
    (applyHistogramOps ops (HistogramVar.make name help bucket)).bucket_counts.length
      = (applyHistogramOps ops (HistogramVar.make name help bucket)).bucket_boundaries.length ∧
    (applyHistogramOps ops (HistogramVar.make name help bucket)).bucket_counts.Pairwise
      (fun a b => a ≤ b) ∧
    (applyHistogramOps ops (HistogramVar.make name help bucket)).bucket_counts.getD
        ((applyHistogramOps ops (HistogramVar.make name help bucket)).bucket_counts.length - 1) 0
      = (applyHistogramOps ops (HistogramVar.make name help bucket)).count := by
  obtain ⟨-, hlen, -, -, hpw, hlast⟩ :=
    histWF_applyOps ops (HistogramVar.make name help bucket)
      (histWF_make name help bucket hb) hops
  exact ⟨hlen, hpw, hlast⟩

/-- A concrete mixed operation sequence exercising all three histogram
mutations, used by the witness below. -/
def histOpsExample : List HistogramOp :=
  [HistogramOp.obs (3/2), HistogramOp.multi [1, 0, 2] 4,
   HistogramOp.red (HistogramVar.make "o" "o" [1, 2]) 3]

/-- Witness for `histogram_cumulative_invariants` at boundaries `[1, 2]` and
the concrete operation sequence `histOpsExample`. -/
theorem histogram_cumulative_invariants_witness :
    (([1, 2] : List ℚ).Pairwise (fun a b => a < b) ∧
     (∀ op ∈ histOpsExample, HistogramOpWF op)) ∧
    ((applyHistogramOps histOpsExample (HistogramVar.make "h" "h" [1, 2])).bucket_counts.length
      = (applyHistogramOps histOpsExample
          (HistogramVar.make "h" "h" [1, 2])).bucket_boundaries.length ∧
     (applyHistogramOps histOpsExample
        (HistogramVar.make "h" "h" [1, 2])).bucket_counts.Pairwise (fun a b => a ≤ b) ∧
     (applyHistogramOps histOpsExample (HistogramVar.make "h" "h" [1, 2])).bucket_counts.getD
        ((applyHistogramOps histOpsExample
          (HistogramVar.make "h" "h" [1, 2])).bucket_counts.length - 1) 0
      = (applyHistogramOps histOpsExample (HistogramVar.make "h" "h" [1, 2])).count) :=
  ⟨⟨by decide, by decide⟩,
    histogram_cumulative_invariants "h" "h" [1, 2] (by decide) histOpsExample (by decide)⟩

/-! ## CounterVar and SummaryVar, modelled from the spec

`CounterVar`'s constructor is inline in rpc_var.h, but its method bodies
(`add(labels)`, `label_to_str`, `reduce`, `collect`) are only declared
there, as are all of `SummaryVar`'s methods and its constructor; the
missing parts are modelled from the spec. -/

/-- Modelled from the spec: the missing `CounterVar::label_to_str` — the
canonical, deterministic serialization of a label set, sorted by label key
so identical label combinations always collide to the same child
regardless of the insertion order of labels. -/
def label_to_str (labels : List (String × String)) : String :=
  String.intercalate ","
    ((labels.mergeSort (fun a b => a.1 ≤ b.1)).map (fun kv => kv.1 ++ "=" ++ kv.2))

/-- Mirrors `class CounterVar : public RPCVar`: the base fields and the
label-string → child gauge map `data`. -/
structure CounterVar where
  name : String
  help : String
  type : RPCVarType
  data : List (String × GaugeVar)
deriving DecidableEq

/-- Mirrors the constructor `CounterVar(name, help)`: base type tag
`VAR_COUNTER`, empty label map. -/
def CounterVar.make (name help : String) : CounterVar :=
  { name := name, help := help, type := RPCVarType.VAR_COUNTER, data := [] }

/-- Mirrors `RPCVar::get_name` for counters. -/
def CounterVar.get_name (c : CounterVar) : String := c.name

/-- Mirrors `RPCVar::get_type` for counters. -/
def CounterVar.get_type (c : CounterVar) : RPCVarType := c.type

/-- Modelled from the spec: the missing `CounterVar::add(labels)` — find or
create the child gauge keyed by the canonical label string. -/
def CounterVar.add (c : CounterVar) (labels : List (String × String)) :
    CounterVar × GaugeVar :=
  match c.data.lookup (label_to_str labels) with
  | some g => (c, g)
  | none =>
    ({ c with data :=
        c.data ++ [(label_to_str labels, GaugeVar.make (label_to_str labels) "")] },
     GaugeVar.make (label_to_str labels) "")

/-- Modelled from the spec: the counter merge algebra — union of the
label-set key space; for keys present in both sides the child gauges'
values are added, keys present in only one side are carried through
unchanged. -/
def mergeCounterData (self other : List (String × GaugeVar)) :
    List (String × GaugeVar) :=
  (self.map (fun kv =>
    match other.lookup kv.1 with
    | some g => (kv.1, { kv.2 with data := kv.2.data + g.data })
    | none => kv)) ++
  (other.filter (fun kv => (self.lookup kv.1).isNone))

/-- Modelled from the spec: the missing `CounterVar::reduce(ptr, sz)` where
the payload is another counter's label map — the size is validated before
any mutation, then the maps are merged per the counter merge algebra. -/
def CounterVar.reduce (c : CounterVar) (other : List (String × GaugeVar))
    (sz : Nat) : CounterVar × Bool :=
  if sz = other.length then
    ({ c with data := mergeCounterData c.data other }, true)
  else (c, false)

/-- Mirrors `class SummaryVar : public RPCVar`: base fields, the requested
quantiles (each with its error tolerance), running `sum` and `count`, the
time-window configuration, and the estimator's resident observations.
Wall-clock bucket rotation inside `TimeWindowQuantiles` is time-driven and
not modelled; the estimator state here is the observations it holds. -/
structure SummaryVar where
  name : String
  help : String
  type : RPCVarType
  quantiles : List (ℚ × ℚ)
  sum : ℚ
  count : Nat
  max_age : Nat
  age_buckets : Nat
  quantile_values : List ℚ
deriving DecidableEq

/-- Modelled from the spec: the missing constructor
`SummaryVar(name, help, quantile, max_age, age_bucket)` — base type tag
`VAR_SUMMARY`, zero sum and count, empty estimator. -/
def SummaryVar.make (name help : String) (quantile : List (ℚ × ℚ))
    (max_age : Nat) (age_bucket : Nat) : SummaryVar :=
  { name := name, help := help, type := RPCVarType.VAR_SUMMARY,
    quantiles := quantile, sum := 0, count := 0,
    max_age := max_age, age_buckets := age_bucket, quantile_values := [] }

/-- Mirrors `RPCVar::get_name` for summaries. -/
def SummaryVar.get_name (s : SummaryVar) : String := s.name

/-- Mirrors `RPCVar::get_type` for summaries. -/
def SummaryVar.get_type (s : SummaryVar) : RPCVarType := s.type

/-- Modelled from the spec: the missing `SummaryVar::observe(value)` —
advance `sum` and `count` and insert the value into the estimator. -/
def SummaryVar.observe (s : SummaryVar) (value : ℚ) : SummaryVar :=
  { s with
    sum := s.sum + value,
    count := s.count + 1,
    quantile_values := s.quantile_values ++ [value] }

/-- Modelled from the spec: the missing `SummaryVar::reduce(ptr, sz)` where
the payload is another summary's data — the size is validated against the
configured quantile count before any mutation; `sum` and `count` are added
and the quantile estimator is deliberately not merged. -/
def SummaryVar.reduce (s : SummaryVar) (other : SummaryVar) (sz : Nat) :
    SummaryVar × Bool :=
  if sz = s.quantiles.length then
    ({ s with sum := s.sum + other.sum, count := s.count + other.count }, true)
  else (s, false)

/-! ## Immutability of kind tag and name -/

/-- One public mutation of a gauge: `increase`, `decrease`, `set` or
`reduce`.  (`collect` is read-only in the embedding — it returns a callback
trace and no new state — and registry `add` stores handles without touching
the variables, so neither can change a variable's fields.) -/
inductive GaugeOp
  | inc
  | dec
  | setv (v : ℚ)
  | red (d : ℚ) (sz : Nat)
deriving DecidableEq, Repr

/-- Run one `GaugeOp` on a gauge. -/
def applyGaugeOp (g : GaugeVar) : GaugeOp → GaugeVar
  | .inc => g.increase
  | .dec => g.decrease
  | .setv v => g.set v
  | .red d sz => (g.reduce d sz).1

/-- Run a sequence of gauge operations. -/
def applyGaugeOps (ops : List GaugeOp) (g : GaugeVar) : GaugeVar :=
  ops.foldl applyGaugeOp g

lemma applyGaugeOp_fields (g : GaugeVar) (op : GaugeOp) :
    (applyGaugeOp g op).name = g.name ∧ (applyGaugeOp g op).type = g.type := by
  cases op <;> exact ⟨rfl, rfl⟩

lemma applyGaugeOps_fields (ops : List GaugeOp) (g : GaugeVar) :
    (applyGaugeOps ops g).name = g.name ∧ (applyGaugeOps ops g).type = g.type := by
  induction ops generalizing g with
  | nil => exact ⟨rfl, rfl⟩
  | cons op t ih =>
    have hstep : applyGaugeOps (op :: t) g = applyGaugeOps t (applyGaugeOp g op) := rfl
    rw [hstep]
    obtain ⟨h1, h2⟩ := ih (applyGaugeOp g op)
    obtain ⟨h3, h4⟩ := applyGaugeOp_fields g op
    exact ⟨h1.trans h3, h2.trans h4⟩

lemma applyHistogramOp_fields (h : HistogramVar) (op : HistogramOp) :
    (applyHistogramOp h op).name = h.name ∧ (applyHistogramOp h op).type = h.type := by
  cases op with
  | obs v => exact ⟨rfl, rfl⟩
  | multi m s =>
    show ((h.observe_multi m s).1).name = h.name ∧ ((h.observe_multi m s).1).type = h.type
    unfold HistogramVar.observe_multi
    by_cases hc : m.length = h.bucket_counts.length
    · rw [if_pos hc]
      exact ⟨rfl, rfl⟩
    · rw [if_neg hc]
      exact ⟨rfl, rfl⟩
  | red o sz =>
    show ((h.reduce o sz).1).name = h.name ∧ ((h.reduce o sz).1).type = h.type
    unfold HistogramVar.reduce
    by_cases hc : o.bucket_boundaries = h.bucket_boundaries ∧
        sz = h.bucket_counts.length ∧ o.bucket_counts.length = h.bucket_counts.length
    · rw [if_pos hc]
      exact ⟨rfl, rfl⟩
    · rw [if_neg hc]
      exact ⟨rfl, rfl⟩

lemma applyHistogramOps_fields (ops : List HistogramOp) (h : HistogramVar) :
    (applyHistogramOps ops h).name = h.name ∧ (applyHistogramOps ops h).type = h.type := by
  induction ops generalizing h with
  | nil => exact ⟨rfl, rfl⟩
  | cons op t ih =>
    have hstep : applyHistogramOps (op :: t) h
        = applyHistogramOps t (applyHistogramOp h op) := rfl
    rw [hstep]
    obtain ⟨h1, h2⟩ := ih (applyHistogramOp h op)
    obtain ⟨h3, h4⟩ := applyHistogramOp_fields h op
    exact ⟨h1.trans h3, h2.trans h4⟩

/-- One public mutation of a counter: label-keyed child find-or-create
(`add(labels)`) or `reduce`.  (`collect` is read-only: it drives the
collector callbacks and produces no new state.) -/
inductive CounterOp
  | addl (labels : List (String × String))
  | red (other : List (String × GaugeVar)) (sz : Nat)
deriving DecidableEq

/-- Run one `CounterOp` on a counter. -/
def applyCounterOp (c : CounterVar) : CounterOp → CounterVar
  | .addl labels => (c.add labels).1
  | .red o sz => (c.reduce o sz).1

/-- Run a sequence of counter operations. -/
def applyCounterOps (ops : List CounterOp) (c : CounterVar) : CounterVar :=
  ops.foldl applyCounterOp c

/-- One public mutation of a summary: `observe` or `reduce`.  (`collect` is
read-only.) -/
inductive SummaryOp
  | obs (value : ℚ)
  | red (other : SummaryVar) (sz : Nat)
deriving DecidableEq

/-- Run one `SummaryOp` on a summary. -/
def applySummaryOp (s : SummaryVar) : SummaryOp → SummaryVar
  | .obs v => s.observe v
  | .red o sz => (s.reduce o sz).1

/-- Run a sequence of summary operations. -/
def applySummaryOps (ops : List SummaryOp) (s : SummaryVar) : SummaryVar :=
  ops.foldl applySummaryOp s

lemma applyCounterOp_fields (c : CounterVar) (op : CounterOp) :
    (applyCounterOp c op).name = c.name ∧ (applyCounterOp c op).type = c.type := by
  cases op with
  | addl labels =>
    show ((c.add labels).1).name = c.name ∧ ((c.add labels).1).type = c.type
    unfold CounterVar.add
    cases c.data.lookup (label_to_str labels) <;> exact ⟨rfl, rfl⟩
  | red o sz =>
    show ((c.reduce o sz).1).name = c.name ∧ ((c.reduce o sz).1).type = c.type
    unfold CounterVar.reduce
    by_cases hc : sz = o.length
    · rw [if_pos hc]
      exact ⟨rfl, rfl⟩
    · rw [if_neg hc]
      exact ⟨rfl, rfl⟩

lemma applyCounterOps_fields (ops : List CounterOp) (c : CounterVar) :
    (applyCounterOps ops c).name = c.name ∧ (applyCounterOps ops c).type = c.type := by
  induction ops generalizing c with
  | nil => exact ⟨rfl, rfl⟩
  | cons op t ih =>
    have hstep : applyCounterOps (op :: t) c
        = applyCounterOps t (applyCounterOp c op) := rfl
    rw [hstep]
    obtain ⟨h1, h2⟩ := ih (applyCounterOp c op)
    obtain ⟨h3, h4⟩ := applyCounterOp_fields c op
    exact ⟨h1.trans h3, h2.trans h4⟩

lemma applySummaryOp_fields (s : SummaryVar) (op : SummaryOp) :
    (applySummaryOp s op).name = s.name ∧ (applySummaryOp s op).type = s.type := by
  cases op with
  | obs v => exact ⟨rfl, rfl⟩
  | red o sz =>
    show ((s.reduce o sz).1).name = s.name ∧ ((s.reduce o sz).1).type = s.type
    unfold SummaryVar.reduce
    by_cases hc : sz = s.quantiles.length
    · rw [if_pos hc]
      exact ⟨rfl, rfl⟩
    · rw [if_neg hc]
      exact ⟨rfl, rfl⟩

lemma applySummaryOps_fields (ops : List SummaryOp) (s : SummaryVar) :
    (applySummaryOps ops s).name = s.name ∧ (applySummaryOps ops s).type = s.type := by
  induction ops generalizing s with
  | nil => exact ⟨rfl, rfl⟩
  | cons op t ih =>
    have hstep : applySummaryOps (op :: t) s
        = applySummaryOps t (applySummaryOp s op) := rfl
    rw [hstep]
    obtain ⟨h1, h2⟩ := ih (applySummaryOp s op)
    obtain ⟨h3, h4⟩ := applySummaryOp_fields s op
    exact ⟨h1.trans h3, h2.trans h4⟩

/-- Claim C7: across every sequence of public operations, `get_type()` and
`get_name()` return the values fixed at construction — the kind tag and the
name are never changed after construction, for every metric kind: gauges
(increase, decrease, set, reduce), counters (label add, reduce), histograms
(observe, observe_multi, reduce) and summaries (observe, reduce); `collect`
is read-only and registry `add` stores handles without touching the
variables. -/
theorem kind_and_name_immutable (name help : String) (gops : List GaugeOp)
    (bucket : List ℚ) (hops : List HistogramOp) (cops : List CounterOp)
    (quantile : List (ℚ × ℚ)) (max_age age_bucket : Nat) (sops : List SummaryOp) :
    ((applyGaugeOps gops (GaugeVar.make name help)).get_name = name ∧
     (applyGaugeOps gops (GaugeVar.make name help)).get_type = RPCVarType.VAR_GAUGE) ∧
    ((applyHistogramOps hops (HistogramVar.make name help bucket)).get_name = name ∧
     (applyHistogramOps hops (HistogramVar.make name help bucket)).get_type
        = RPCVarType.VAR_HISTOGRAM) ∧
    ((applyCounterOps cops (CounterVar.make name help)).get_name = name ∧
     (applyCounterOps cops (CounterVar.make name help)).get_type
        = RPCVarType.VAR_COUNTER) ∧
    ((applySummaryOps sops
        (SummaryVar.make name help quantile max_age age_bucket)).get_name = name ∧
     (applySummaryOps sops
        (SummaryVar.make name help quantile max_age age_bucket)).get_type
        = RPCVarType.VAR_SUMMARY) := by
  obtain ⟨hg1, hg2⟩ := applyGaugeOps_fields gops (GaugeVar.make name help)
  obtain ⟨hh1, hh2⟩ := applyHistogramOps_fields hops (HistogramVar.make name help bucket)
  obtain ⟨hc1, hc2⟩ := applyCounterOps_fields cops (CounterVar.make name help)
  obtain ⟨hs1, hs2⟩ := applySummaryOps_fields sops
    (SummaryVar.make name help quantile max_age age_bucket)
  exact ⟨⟨hg1, hg2⟩, ⟨hh1, hh2⟩, ⟨hc1, hc2⟩, ⟨hs1, hs2⟩⟩

end srpc
